import Mathlib

/-!
# rover: layered option resolution of `cmd/root.go`

A shallow embedding of `cmd/root.go`: the `opts` record, `newDefaultOpts`,
`parseEnvs`, the flag registrations of `NewRootCmd`, `validateFlags`, the
`RunE` closure and `Execute`.

`root.go` calls three libraries whose sources are not part of the repository.
Their behaviour on the calls made by `root.go` is modelled here:

* `github.com/caarlos0/env/v6` (`env.Parse` with `Options.Prefix`),
* `github.com/spf13/pflag` (`StringVarP`, `BoolVarP`, `StringSliceVar`, ... and
  `FlagSet.Parse`), together with Go's `strconv.ParseBool`, `strings.Split`
  and `encoding/csv` which they call,
* `github.com/spf13/cobra` (`Command.Execute` of a root command without
  sub-commands).

Go strings are modelled by `String`, a Go `[]string` by `List String` (a nil
slice and an empty slice are both `[]`), a Go `error` by `Option GoError`.
-/

namespace Rover

/-! ## Data model -/

/-- Line 14: `const envVarPrefix = "ROVER_"`. -/
def envVarPrefix : String := "ROVER_"

/-- The `opts` struct, lines 16-42. -/
structure opts where
  Name : String
  ZipFileName : String
  WorkingDir : String
  ShowSensitive : Bool
  GenImage : Bool
  Listener : String
  Standalone : Bool
  PlanPath : String
  PlanJSONPath : String
  TFPath : String
  TFWorkspace : String
  TFVarFiles : List String
  TFVars : List String
  TFBackendConfigs : List String
  TFCHostName : String
  TFCOrgName : String
  TFCWorkspaceName : String
  TFCNewRun : Bool
deriving DecidableEq, Repr

/-- The `string` fields of `opts`; a value of this type plays the role of a
`*string` pointing into the record (`&o.Name`, ...). -/
inductive StrField where
  | Name | ZipFileName | WorkingDir | Listener | PlanPath | PlanJSONPath
  | TFPath | TFWorkspace | TFCHostName | TFCOrgName | TFCWorkspaceName
deriving DecidableEq, Repr

/-- The `bool` fields of `opts` (a `*bool` into the record). -/
inductive BoolField where
  | ShowSensitive | GenImage | Standalone | TFCNewRun
deriving DecidableEq, Repr

/-- The `[]string` fields of `opts` (a `*[]string` into the record). -/
inductive ListField where
  | TFVarFiles | TFVars | TFBackendConfigs
deriving DecidableEq, Repr

/-- A field of `opts`, of any of its three types. -/
inductive Field where
  | str (p : StrField)
  | bool (p : BoolField)
  | list (p : ListField)
deriving DecidableEq, Repr

/-- A value held by a field of `opts`. -/
inductive Value where
  | str (s : String)
  | bool (b : Bool)
  | list (l : List String)
deriving DecidableEq, Repr

/-- The 18 fields of `opts` in declaration order (lines 18-41). -/
def allFields : List Field :=
  [.str .Name, .str .ZipFileName, .str .WorkingDir, .bool .ShowSensitive,
   .bool .GenImage, .str .Listener, .bool .Standalone,
   .str .PlanPath, .str .PlanJSONPath,
   .str .TFPath, .str .TFWorkspace, .list .TFVarFiles, .list .TFVars,
   .list .TFBackendConfigs,
   .str .TFCHostName, .str .TFCOrgName, .str .TFCWorkspaceName, .bool .TFCNewRun]

/-- The `env:"..."` struct tag of each field (lines 18-41). -/
def Field.envTag : Field → String
  | .str .Name => "NAME"
  | .str .ZipFileName => "ZIP_FILE_NAME"
  | .str .WorkingDir => "WORKING_DIRECTORY"
  | .bool .ShowSensitive => "SHOW_SENSITIVE"
  | .bool .GenImage => "GEN_IMAGE"
  | .str .Listener => "LISTENER"
  | .bool .Standalone => "STANDALONE"
  | .str .PlanPath => "PLAN_JSON"
  | .str .PlanJSONPath => "PLAN_JSON_PATH"
  | .str .TFPath => "TF_PATH"
  | .str .TFWorkspace => "TF_WORKSPACE"
  | .list .TFVarFiles => "TF_VAR_FILES"
  | .list .TFVars => "TF_VARS"
  | .list .TFBackendConfigs => "TF_BACKEND_CONFIGS"
  | .str .TFCHostName => "TFC_HOSTNAME"
  | .str .TFCOrgName => "TFC_ORG_NAME"
  | .str .TFCWorkspaceName => "TFC_WORKSPACE_NAME"
  | .bool .TFCNewRun => "TFC_NEW_RUN"

/-- Read through a `*string`. -/
def opts.getStr (o : opts) : StrField → String
  | .Name => o.Name
  | .ZipFileName => o.ZipFileName
  | .WorkingDir => o.WorkingDir
  | .Listener => o.Listener
  | .PlanPath => o.PlanPath
  | .PlanJSONPath => o.PlanJSONPath
  | .TFPath => o.TFPath
  | .TFWorkspace => o.TFWorkspace
  | .TFCHostName => o.TFCHostName
  | .TFCOrgName => o.TFCOrgName
  | .TFCWorkspaceName => o.TFCWorkspaceName

/-- Read through a `*bool`. -/
def opts.getBool (o : opts) : BoolField → Bool
  | .ShowSensitive => o.ShowSensitive
  | .GenImage => o.GenImage
  | .Standalone => o.Standalone
  | .TFCNewRun => o.TFCNewRun

/-- Read through a `*[]string`. -/
def opts.getList (o : opts) : ListField → List String
  | .TFVarFiles => o.TFVarFiles
  | .TFVars => o.TFVars
  | .TFBackendConfigs => o.TFBackendConfigs

/-- The value of a field. -/
def opts.get (o : opts) : Field → Value
  | .str p => .str (o.getStr p)
  | .bool p => .bool (o.getBool p)
  | .list p => .list (o.getList p)

/-- Write through a `*string` (`*p = v`). -/
def opts.setStr (o : opts) (p : StrField) (v : String) : opts :=
  match p with
  | .Name => { o with Name := v }
  | .ZipFileName => { o with ZipFileName := v }
  | .WorkingDir => { o with WorkingDir := v }
  | .Listener => { o with Listener := v }
  | .PlanPath => { o with PlanPath := v }
  | .PlanJSONPath => { o with PlanJSONPath := v }
  | .TFPath => { o with TFPath := v }
  | .TFWorkspace => { o with TFWorkspace := v }
  | .TFCHostName => { o with TFCHostName := v }
  | .TFCOrgName => { o with TFCOrgName := v }
  | .TFCWorkspaceName => { o with TFCWorkspaceName := v }

/-- Write through a `*bool`. -/
def opts.setBool (o : opts) (p : BoolField) (v : Bool) : opts :=
  match p with
  | .ShowSensitive => { o with ShowSensitive := v }
  | .GenImage => { o with GenImage := v }
  | .Standalone => { o with Standalone := v }
  | .TFCNewRun => { o with TFCNewRun := v }

/-- Write through a `*[]string`. -/
def opts.setList (o : opts) (p : ListField) (v : List String) : opts :=
  match p with
  | .TFVarFiles => { o with TFVarFiles := v }
  | .TFVars => { o with TFVars := v }
  | .TFBackendConfigs => { o with TFBackendConfigs := v }

/-- The function `newDefaultOpts`, lines 44-57. Fields the literal does not mention hold
Go's zero value (`""`, `false`, nil slice). -/
def newDefaultOpts : opts :=
  { Name := "rover"
    ZipFileName := "rover"
    WorkingDir := "."
    Listener := "0.0.0.0:9000"
    ShowSensitive := false
    Standalone := false
    GenImage := false
    TFPath := "/bin/terraform"
    TFCHostName := "app.terraform.io"
    TFCNewRun := false
    PlanPath := ""
    PlanJSONPath := ""
    TFWorkspace := ""
    TFVarFiles := []
    TFVars := []
    TFBackendConfigs := []
    TFCOrgName := ""
    TFCWorkspaceName := "" }

/-! ## Go errors -/

deriving instance DecidableEq for Except

/-- A Go `error`: its message, and for an error built with `%w` the error it
wraps. -/
inductive GoError where
  | leaf (msg : String)
  | wrap (msg : String) (inner : GoError)
deriving DecidableEq, Repr

/-- The method `Error()`. -/
def GoError.Error : GoError → String
  | .leaf m => m
  | .wrap m _ => m

/-- The result of `errors.Unwrap`. -/
def GoError.Unwrap : GoError → Option GoError
  | .leaf _ => none
  | .wrap _ e => some e

/-! ## The environment resolver (`caarlos0/env/v6`) -/

/-- The process environment as `os.LookupEnv` sees it. -/
abbrev Env := String → Option String

/-- Go's `strconv.ParseBool`: the twelve accepted literals. -/
def parseBool (s : String) : Option Bool :=
  if s = "1" ∨ s = "t" ∨ s = "T" ∨ s = "TRUE" ∨ s = "true" ∨ s = "True" then some true
  else if s = "0" ∨ s = "f" ∨ s = "F" ∨ s = "FALSE" ∨ s = "false" ∨ s = "False" then some false
  else none

/-- Go's `strings.Split(s, ",")` on the characters of `s`: the pieces between
commas, always at least one. -/
def splitComma : List Char → List (List Char)
  | [] => [[]]
  | c :: cs =>
    if c = ',' then [] :: splitComma cs
    else
      match splitComma cs with
      | [] => [[c]]
      | p :: ps => (c :: p) :: ps

/-- The library's `get`: the variable's value, `""` when it is not set (the
fields carry no `envDefault`, `required`, `notEmpty`, `unset`, `file` or
`envExpand` tag). The variable's name is the prefix followed by the tag. -/
def envGet (env : Env) (f : Field) : String :=
  (env (envVarPrefix ++ f.envTag)).getD ""

/-- The library's `set` for the three field types of `opts`: a string is
stored as it is, a bool goes through `strconv.ParseBool`, a `[]string` is the
value split at `,` (no field carries an `envSeparator` tag). The text of the
error is abridged: it names the variable, not the offending value. -/
def envSet (o : opts) (f : Field) (value : String) : Except GoError opts :=
  match f with
  | .str p => .ok (o.setStr p value)
  | .bool p =>
    match parseBool value with
    | some b => .ok (o.setBool p b)
    | none =>
      .error (.leaf ("env: parse error on field of type bool, variable " ++ envVarPrefix ++ f.envTag))
  | .list p => .ok (o.setList p ((splitComma value.data).map String.mk))

/-- The library's per-field step (`doParseField`): a field whose variable is
unset or empty is skipped, any other value is stored with `set`. -/
def doParseField (env : Env) (o : opts) (f : Field) : Except GoError opts :=
  let value := envGet env f
  if value ≠ "" then envSet o f value else .ok o

/-- The library's `env.Parse`: the fields are visited in declaration order.
An error of a field makes the whole call return an error (the text of the
error returned depends on the library's version and is that of the first
failing field here). -/
def envParse (env : Env) (o : opts) : Except GoError opts :=
  allFields.foldlM (doParseField env) o

/-- The method `parseEnvs`, lines 131-139: `env.Parse` with the prefix
`ROVER_`, its error handed on unchanged. -/
def opts.parseEnvs (env : Env) (o : opts) : Except GoError opts :=
  match envParse env o with
  | .error err => .error err
  | .ok o' => .ok o'

/-! ## Reading a flag value as CSV (`encoding/csv`, used by `pflag`) -/

/-- The error `csv.ErrBareQuote`. (The reader returns it inside a
`csv.ParseError` that adds the position; the position is left out here, also
for `ErrQuote`.) -/
def ErrBareQuote : GoError := .leaf "bare \" in non-quoted-field"

/-- The error `csv.ErrQuote`. -/
def ErrQuote : GoError := .leaf "extraneous or missing \" in quoted-field"

/-- The error `io.EOF`. -/
def EOF : GoError := .leaf "EOF"

/-- The reader's `lengthNL`: 1 when the line ends in a newline, else 0. -/
def lengthNL (line : List Char) : Nat :=
  if line.getLast? = some '\n' then 1 else 0

/-- The reader's `readLine` on the unread input: `none` at end of input,
else the next line and the input after it. The line keeps its final `\n`; a
`\r` before it is dropped, and so is a `\r` that ends the input. -/
def readLine (input : List Char) : Option (List Char × List Char) :=
  if input = [] then none
  else
    match input.span (fun c => c ≠ '\n') with
    | (l, []) => some (if l.getLast? = some '\r' then l.dropLast else l, [])
    | (l, _ :: rest) =>
      some (if l.getLast? = some '\r' then l.dropLast ++ ['\n'] else l ++ ['\n'], rest)

/-- The head of `readRecord`: read lines until one is not empty; `none` when
the input ends first. -/
def readNonEmptyLine : Nat → List Char → Option (List Char × List Char)
  | 0, _ => none
  | n + 1, input =>
    match readLine input with
    | none => none
    | some (line, rest) =>
      if line.length = lengthNL line then readNonEmptyLine n rest else some (line, rest)

/-- Split a line at the first occurrence of `sep`: the part before it and the
part after it, or `none` when `sep` does not occur (`bytes.IndexRune`). -/
def cutAt (sep : Char) : List Char → Option (List Char × List Char)
  | [] => none
  | c :: cs =>
    if c = sep then some ([], cs)
    else
      match cutAt sep cs with
      | none => none
      | some (pre, post) => some (c :: pre, post)

/-- The field loop of `readRecord` for the reader `csv.NewReader` returns
(comma `,`, no lazy quotes, no trimming). `quoted` is `none` at the start of
a field and holds the text gathered so far inside a quoted field; `line` is
the unparsed rest of the current line, `input` the unread input and `record`
the fields completed so far. The first argument bounds the number of steps;
each step consumes a character of `line` or `input`. -/
def parseRecord : Nat → Option (List Char) → List Char → List Char → List String →
    Except GoError (List String)
  | 0, _, _, _, _ => .error (.leaf "csv: step bound reached")
  | n + 1, none, line, input, record =>
    if line.head? ≠ some '"' then
      -- non-quoted string field
      match cutAt ',' line with
      | some (field, rest) =>
        if '"' ∈ field then .error ErrBareQuote
        else parseRecord n none rest input (record ++ [String.mk field])
      | none =>
        let field := line.take (line.length - lengthNL line)
        if '"' ∈ field then .error ErrBareQuote
        else .ok (record ++ [String.mk field])
    else
      -- quoted string field
      parseRecord n (some []) (line.drop 1) input record
  | n + 1, some buf, line, input, record =>
    match cutAt '"' line with
    | some (pre, rest) =>
      -- hit next quote
      match rest with
      | '"' :: rest' => parseRecord n (some (buf ++ pre ++ ['"'])) rest' input record
      | ',' :: rest' => parseRecord n none rest' input (record ++ [String.mk (buf ++ pre)])
      | _ =>
        if lengthNL rest = rest.length then .ok (record ++ [String.mk (buf ++ pre)])
        else .error ErrQuote
    | none =>
      if line ≠ [] then
        -- hit end of line: the field goes on in the next line
        match readLine input with
        | some (line', input') => parseRecord n (some (buf ++ line)) line' input' record
        | none => parseRecord n (some (buf ++ line)) [] [] record
      else
        -- abrupt end of input inside a quoted field
        .error ErrQuote

/-- The method `Read` of a fresh `csv.Reader` over `input`: its first record. -/
def csvRead (input : List Char) : Except GoError (List String) :=
  match readNonEmptyLine (input.length + 1) input with
  | none => .error EOF
  | some (line, rest) => parseRecord (input.length + 2) none line rest []

/-- The function `readAsCSV` of `pflag`: the empty string gives no value,
any other string is read as one CSV record. -/
def readAsCSV (val : String) : Except GoError (List String) :=
  if val = "" then .ok [] else csvRead val.data

/-! ## Flags (`spf13/pflag`) -/

/-- The variable a flag writes to: a pointer into `opts` of the flag's type,
or the variable of the `help` flag, which lives in the flag set itself. -/
inductive FlagVar where
  | stringVar (p : StrField)
  | boolVar (p : BoolField)
  | stringSliceVar (p : ListField)
  | help
deriving DecidableEq, Repr

/-- A registered flag: its long name, its one-letter shorthand (`""` when it
has none), the variable it is bound to, the default value it was registered
with and its usage text. -/
structure Flag where
  Name : String
  Shorthand : String
  Var : FlagVar
  DefValue : Value
  Usage : String
deriving DecidableEq, Repr

/-- The field of `opts` a flag is bound to, if any. -/
def Flag.field (fl : Flag) : Option Field :=
  match fl.Var with
  | .stringVar p => some (.str p)
  | .boolVar p => some (.bool p)
  | .stringSliceVar p => some (.list p)
  | .help => none

/-- The field `NoOptDefVal` of a flag: `"true"` for a bool flag, so that the
flag can be given without a value; empty for the other types. -/
def Flag.NoOptDefVal (fl : Flag) : String :=
  match fl.Var with
  | .boolVar _ => "true"
  | .help => "true"
  | _ => ""

/-- The command under construction and while it parses: the record `o`
captured by `RunE` and pointed into by the flags, the registered flags in
registration order, the names of the flags set so far by the command line
(`Flag.Changed`), the value of the `help` flag and the arguments that are not
flags. -/
structure Command where
  o : opts
  flags : List Flag
  changed : List String
  helpVal : Bool
  args : List String
deriving DecidableEq, Repr

/-- The call `Flags().StringVarP(p, name, shorthand, value, usage)`: stores `value`
through `p` and registers the flag. -/
def Command.StringVarP (c : Command) (p : StrField) (name shorthand value usage : String) :
    Command :=
  { c with
    o := c.o.setStr p value
    flags := c.flags ++ [{ Name := name, Shorthand := shorthand, Var := .stringVar p,
                           DefValue := .str value, Usage := usage }] }

/-- The call `Flags().StringVar(p, name, value, usage)`: `StringVarP` without shorthand. -/
def Command.StringVar (c : Command) (p : StrField) (name value usage : String) : Command :=
  c.StringVarP p name "" value usage

/-- The call `Flags().BoolVarP(p, name, shorthand, value, usage)`: stores `value`
through `p` and registers the flag. -/
def Command.BoolVarP (c : Command) (p : BoolField) (name shorthand : String) (value : Bool)
    (usage : String) : Command :=
  { c with
    o := c.o.setBool p value
    flags := c.flags ++ [{ Name := name, Shorthand := shorthand, Var := .boolVar p,
                           DefValue := .bool value, Usage := usage }] }

/-- The call `Flags().BoolVar(p, name, value, usage)`: `BoolVarP` without shorthand. -/
def Command.BoolVar (c : Command) (p : BoolField) (name : String) (value : Bool)
    (usage : String) : Command :=
  c.BoolVarP p name "" value usage

/-- The call `Flags().StringSliceVar(p, name, value, usage)`: stores `value` through
`p` and registers the flag. -/
def Command.StringSliceVar (c : Command) (p : ListField) (name : String) (value : List String)
    (usage : String) : Command :=
  { c with
    o := c.o.setList p value
    flags := c.flags ++ [{ Name := name, Shorthand := "", Var := .stringSliceVar p,
                           DefValue := .list value, Usage := usage }] }

/-- The method `InitDefaultHelpFlag` of cobra: the bool flag `help` with
shorthand `h` and default `false`, added before the arguments are parsed. -/
def Command.InitDefaultHelpFlag (c : Command) : Command :=
  { c with
    helpVal := false
    flags := c.flags ++ [{ Name := "help", Shorthand := "h", Var := .help,
                           DefValue := .bool false, Usage := "help for rover" }] }

/-- The flag registered under a long name (`f.formal[name]`). -/
def Command.lookup (c : Command) (name : String) : Option Flag :=
  c.flags.find? (fun fl => fl.Name = name)

/-- The flag registered under a shorthand letter (`f.shorthands[c]`). -/
def Command.lookupShorthand (c : Command) (ch : Char) : Option Flag :=
  c.flags.find? (fun fl => fl.Shorthand = String.singleton ch)

/-- The error `pflag.ErrHelp`. -/
def ErrHelp : GoError := .leaf "pflag: help requested"

/-- The error `FlagSet.Set` returns when the flag's value rejects the text;
it carries the text of the rejection (its own text is abridged). -/
def invalidArgument (fl : Flag) (err : GoError) : GoError :=
  .leaf ("invalid argument for \"--" ++ fl.Name ++ "\" flag: " ++ err.Error)

/-- The method `FlagSet.Set` for a registered flag: the flag's value parses
the text and stores it through the flag's pointer; the flag is then marked
as changed. A string flag stores the text; a bool flag stores its
`strconv.ParseBool`; a string-slice flag reads the text as CSV and replaces
the list when the flag is set for the first time, appends to it afterwards. -/
def Command.Set (c : Command) (fl : Flag) (value : String) : Except GoError Command :=
  let mark : List String := if fl.Name ∈ c.changed then c.changed else c.changed ++ [fl.Name]
  match fl.Var with
  | .stringVar p => .ok { c with o := c.o.setStr p value, changed := mark }
  | .boolVar p =>
    match parseBool value with
    | some b => .ok { c with o := c.o.setBool p b, changed := mark }
    | none => .error (invalidArgument fl (.leaf "strconv.ParseBool: invalid syntax"))
  | .stringSliceVar p =>
    match readAsCSV value with
    | .error err => .error (invalidArgument fl err)
    | .ok rv =>
      if fl.Name ∈ c.changed then
        .ok { c with o := c.o.setList p (c.o.getList p ++ rv), changed := mark }
      else
        .ok { c with o := c.o.setList p rv, changed := mark }
  | .help =>
    match parseBool value with
    | some b => .ok { c with helpVal := b, changed := mark }
    | none => .error (invalidArgument fl (.leaf "strconv.ParseBool: invalid syntax"))

/-- The method `parseLongArg`: `s` is an argument that starts with `--` and
is longer than that, `next` the argument after it, if any. Returns the
command after the flag is set and whether `next` was used as its value. -/
def Command.parseLongArg (c : Command) (s : String) (next : Option String) :
    Except GoError (Command × Bool) :=
  let name := s.data.drop 2
  if name.head? = none ∨ name.head? = some '-' ∨ name.head? = some '=' then
    .error (.leaf ("bad flag syntax: " ++ s))
  else
    let split : List Char × Option (List Char) :=
      match cutAt '=' name with
      | some (n, v) => (n, some v)
      | none => (name, none)
    let name := String.mk split.1
    match c.lookup name with
    | none =>
      if name = "help" then .error ErrHelp
      else .error (.leaf ("unknown flag: --" ++ name))
    | some fl =>
      match split.2 with
      | some v =>
        -- '--flag=arg'
        (c.Set fl (String.mk v)).map (fun c' => (c', false))
      | none =>
        if fl.NoOptDefVal ≠ "" then
          -- '--flag' (arg was optional)
          (c.Set fl fl.NoOptDefVal).map (fun c' => (c', false))
        else
          match next with
          | some a =>
            -- '--flag arg'
            (c.Set fl a).map (fun c' => (c', true))
          | none =>
            -- '--flag' (arg was required)
            .error (.leaf ("flag needs an argument: " ++ s))

/-- The methods `parseShortArg` and `parseSingleShortArg`: `shorthands` is
what follows the `-` of an argument, a series of shorthand letters the last
of which may take a value (`-f=arg`, `-farg` or `-f arg`). Returns the
command after the flags are set and whether `next` was used as a value. -/
def Command.parseShortArg : Command → List Char → Option String → Except GoError (Command × Bool)
  | c, [], _ => .ok (c, false)
  | c, ch :: rest, next =>
    if "test.".data.isPrefixOf (ch :: rest) then .ok (c, false)
    else
      match c.lookupShorthand ch with
      | none =>
        if ch = 'h' then .error ErrHelp
        else .error (.leaf ("unknown shorthand flag: " ++ String.singleton ch ++ " in -" ++ String.mk (ch :: rest)))
      | some fl =>
        if rest.length > 1 ∧ rest.head? = some '=' then
          -- '-f=arg'
          (c.Set fl (String.mk (rest.drop 1))).map (fun c' => (c', false))
        else if fl.NoOptDefVal ≠ "" then
          -- '-f' (arg was optional)
          match c.Set fl fl.NoOptDefVal with
          | .error err => .error err
          | .ok c' => Command.parseShortArg c' rest next
        else if rest ≠ [] then
          -- '-farg'
          (c.Set fl (String.mk rest)).map (fun c' => (c', false))
        else
          match next with
          | some a =>
            -- '-f arg'
            (c.Set fl a).map (fun c' => (c', true))
          | none =>
            -- '-f' (arg was required)
            .error (.leaf ("flag needs an argument: " ++ String.singleton ch ++ " in -" ++ String.mk (ch :: rest)))

/-- The method `parseArgs` of the flag set (interspersed arguments allowed,
as cobra sets it): one pass over the argument list. An argument that is
empty, does not start with `-` or is `-` alone is kept as a non-flag
argument; `--` ends the flags; `--...` is a long flag and `-...` a series of
shorthands, either of which may use the next argument as its value. The
first error ends the pass. -/
def Command.parseArgs : Command → List String → Except GoError Command
  | c, [] => .ok c
  | c, s :: rest =>
    if s.data.head? ≠ some '-' ∨ s.data.length = 1 then
      Command.parseArgs { c with args := c.args ++ [s] } rest
    else if s.data.drop 1 = ['-'] then
      .ok { c with args := c.args ++ rest }
    else
      let r :=
        if (s.data.drop 1).head? = some '-' then c.parseLongArg s rest.head?
        else c.parseShortArg (s.data.drop 1) rest.head?
      match r with
      | .error err => .error err
      | .ok (c', false) => Command.parseArgs c' rest
      | .ok (c', true) =>
        match rest with
        | [] => .ok c'
        | _ :: rest' => Command.parseArgs c' rest'

/-! ## The root command (`cmd/root.go`, lines 59-129) -/

/-- How a call ends: the process is ended by `log.Fatal`, or the call returns. -/
inductive Run (α : Type) where
  | fatal (msg : String)
  | ret (a : α)
deriving DecidableEq, Repr

/-- The method `validateFlags`, lines 115-120: a `switch` without cases, then
`return nil`. -/
def opts.validateFlags (_o : opts) : Option GoError :=
  none

/-- The function `NewRootCmd`, lines 60-113. The parameters `v` and `writer` are not used
by the body. `parseEnvs` runs on the defaults; its error ends the process
(`log.Fatal`). Otherwise the command is built and the seventeen flags are
registered in source order, each with the pointer, names, default-value
expression and usage text of its line. -/
def NewRootCmd (env : Env) : Run Command :=
  match newDefaultOpts.parseEnvs env with
  | .error err => .fatal err.Error
  | .ok o =>
    let cmd : Command := { o := o, flags := [], changed := [], helpVal := false, args := [] }
    -- General
    let cmd := cmd.StringVarP .Name "name" "n" cmd.o.Name "Configuration name"
    let cmd := cmd.StringVarP .ZipFileName "zip-file" "z" cmd.o.Name "Standalone zip file name"
    let cmd := cmd.StringVarP .WorkingDir "working-dir" "w" cmd.o.Name "Path to Terraform configuration"
    let cmd := cmd.BoolVarP .ShowSensitive "show-sensitive" "s" cmd.o.ShowSensitive "Display sensitive values"
    let cmd := cmd.BoolVarP .GenImage "gen-image" "g" cmd.o.ShowSensitive "Generate graph image"
    let cmd := cmd.BoolVar .Standalone "standalone" cmd.o.Standalone "Generate standalone HTML files"
    -- Plan
    let cmd := cmd.StringVarP .PlanPath "plan-path" "p" cmd.o.PlanPath "Plan file path"
    let cmd := cmd.StringVarP .PlanJSONPath "plan-json-path" "j" cmd.o.PlanJSONPath "Plan JSON file path"
    -- TF
    let cmd := cmd.StringVar .TFPath "tf-path" cmd.o.TFPath "Path to Terraform binary"
    let cmd := cmd.StringVar .TFCWorkspaceName "tf-workspace" cmd.o.TFPath "Terraform Cloud Workspace name"
    let cmd := cmd.StringSliceVar .TFVarFiles "tf-var-files" cmd.o.TFVarFiles "Path to *.tfvars files"
    let cmd := cmd.StringSliceVar .TFVars "tf-vars" cmd.o.TFVars "Terraform variable (key=value)"
    let cmd := cmd.StringSliceVar .TFBackendConfigs "tf-backend-configs" cmd.o.TFBackendConfigs "Path to *.tfbackend files"
    -- TFC & TFE
    let cmd := cmd.StringVar .TFCHostName "tfc-hostname" cmd.o.TFCHostName "Terraform Cloud/Enterprise Hostname"
    let cmd := cmd.StringVar .TFCOrgName "tfc-org" cmd.o.TFCOrgName "Terraform Cloud Organization name"
    let cmd := cmd.StringVar .TFCWorkspaceName "tfc-workspace" cmd.o.TFCWorkspaceName "Terraform Cloud Workspace name"
    let cmd := cmd.BoolVar .TFCNewRun "tfc-run" cmd.o.TFCNewRun "Create new Terraform Cloud run"
    .ret cmd

/-- What running the command did: how often `parser.GenerateAssets` was
called, whether the help text was printed, and how the run ended. -/
structure Ran where
  generateAssetsCalls : Nat
  helpPrinted : Bool
  exit : Run (Option GoError)
deriving DecidableEq, Repr

/-- The closure `RunE`, lines 72-84, on the record `o` it captured.
`generateAssets` is what `parser.GenerateAssets()` returns, a function of the
package `pkg/parser`. `cmd.Help()` prints the help text and returns nil. -/
def RunE (o : opts) (generateAssets : Option GoError) : Ran :=
  match o.validateFlags with
  | some err => { generateAssetsCalls := 0, helpPrinted := false, exit := .ret (some err) }
  | none =>
    match generateAssets with
    | some err => { generateAssetsCalls := 1, helpPrinted := false, exit := .fatal err.Error }
    | none => { generateAssetsCalls := 1, helpPrinted := true, exit := .ret none }

/-- The method `ParseFlags` of cobra: the `help` flag is added, then the flag
set parses the arguments. -/
def Command.ParseFlags (c : Command) (args : List String) : Except GoError Command :=
  c.InitDefaultHelpFlag.parseArgs args

/-- The method `Execute` of the cobra command built by `NewRootCmd` (a root
command without sub-commands, `SilenceUsage` and `SilenceErrors` set) on the
arguments `os.Args[1:]`: an error of flag parsing is returned; when help was
asked for, the help text is printed and nil is returned; otherwise `RunE`
runs and its error is returned. (The hidden completion request `__complete`
of cobra is not part of the model.) -/
def Command.Execute (c : Command) (args : List String) (generateAssets : Option GoError) : Ran :=
  match c.ParseFlags args with
  | .error err =>
    if err = ErrHelp then { generateAssetsCalls := 0, helpPrinted := true, exit := .ret none }
    else { generateAssetsCalls := 0, helpPrinted := false, exit := .ret (some err) }
  | .ok c' =>
    if c'.helpVal then { generateAssetsCalls := 0, helpPrinted := true, exit := .ret none }
    else RunE c'.o generateAssets

/-- The call `fmt.Errorf("[ERROR] %w", err)`: the message is the format with the
message of `err` in place of `%w`, and the result wraps `err`. -/
def errorfERROR (err : GoError) : GoError :=
  .wrap ("[ERROR] " ++ err.Error) err

/-- Lines 124-128 of `Execute`: what it returns when the command's `Execute`
returned `r`. -/
def wrapResult (r : Option GoError) : Option GoError :=
  match r with
  | some err => some (errorfERROR err)
  | none => none

/-- The function `Execute`, lines 123-129, for a process with environment `env` and
arguments `args` (without the program name). The parameter `version` only
reaches the unused parameter `v` of `NewRootCmd`. -/
def Execute (env : Env) (args : List String) (generateAssets : Option GoError) : Ran :=
  match NewRootCmd env with
  | .fatal msg => { generateAssetsCalls := 0, helpPrinted := false, exit := .fatal msg }
  | .ret cmd =>
    let ran := cmd.Execute args generateAssets
    match ran.exit with
    | .fatal msg => { ran with exit := .fatal msg }
    | .ret r => { ran with exit := .ret (wrapResult r) }

/-- The resolved configuration: the record `o` after `parseEnvs`, the flag
registrations of `NewRootCmd` and the parsing of the arguments, as `RunE`
finds it. `none` when the process ended in `parseEnvs` or the arguments were
rejected. -/
def resolve (env : Env) (args : List String) : Option opts :=
  match NewRootCmd env with
  | .fatal _ => none
  | .ret cmd =>
    match cmd.ParseFlags args with
    | .error _ => none
    | .ok c => some c.o

/-- The empty environment. -/
def emptyEnv : Env := fun _ => none

/-- An environment with one variable set. -/
def singleEnv (name value : String) : Env :=
  fun k => if k = name then some value else none

/-! ## What the registrations amount to -/

/-- The record after the seventeen registrations of `NewRootCmd`, written
out: each registration stores its default-value expression through its
pointer. `NewRootCmd_ret` proves that this is what `NewRootCmd` computes. -/
def registered (o : opts) : opts :=
  { o with
    ZipFileName := o.Name
    WorkingDir := o.Name
    GenImage := o.ShowSensitive
    TFCWorkspaceName := o.TFPath }

/-- The seventeen flags of `NewRootCmd`, written out, for the record `o` that
`parseEnvs` produced. -/
def rootFlags (o : opts) : List Flag :=
  [ { Name := "name", Shorthand := "n", Var := .stringVar .Name,
      DefValue := .str o.Name, Usage := "Configuration name" },
    { Name := "zip-file", Shorthand := "z", Var := .stringVar .ZipFileName,
      DefValue := .str o.Name, Usage := "Standalone zip file name" },
    { Name := "working-dir", Shorthand := "w", Var := .stringVar .WorkingDir,
      DefValue := .str o.Name, Usage := "Path to Terraform configuration" },
    { Name := "show-sensitive", Shorthand := "s", Var := .boolVar .ShowSensitive,
      DefValue := .bool o.ShowSensitive, Usage := "Display sensitive values" },
    { Name := "gen-image", Shorthand := "g", Var := .boolVar .GenImage,
      DefValue := .bool o.ShowSensitive, Usage := "Generate graph image" },
    { Name := "standalone", Shorthand := "", Var := .boolVar .Standalone,
      DefValue := .bool o.Standalone, Usage := "Generate standalone HTML files" },
    { Name := "plan-path", Shorthand := "p", Var := .stringVar .PlanPath,
      DefValue := .str o.PlanPath, Usage := "Plan file path" },
    { Name := "plan-json-path", Shorthand := "j", Var := .stringVar .PlanJSONPath,
      DefValue := .str o.PlanJSONPath, Usage := "Plan JSON file path" },
    { Name := "tf-path", Shorthand := "", Var := .stringVar .TFPath,
      DefValue := .str o.TFPath, Usage := "Path to Terraform binary" },
    { Name := "tf-workspace", Shorthand := "", Var := .stringVar .TFCWorkspaceName,
      DefValue := .str o.TFPath, Usage := "Terraform Cloud Workspace name" },
    { Name := "tf-var-files", Shorthand := "", Var := .stringSliceVar .TFVarFiles,
      DefValue := .list o.TFVarFiles, Usage := "Path to *.tfvars files" },
    { Name := "tf-vars", Shorthand := "", Var := .stringSliceVar .TFVars,
      DefValue := .list o.TFVars, Usage := "Terraform variable (key=value)" },
    { Name := "tf-backend-configs", Shorthand := "", Var := .stringSliceVar .TFBackendConfigs,
      DefValue := .list o.TFBackendConfigs, Usage := "Path to *.tfbackend files" },
    { Name := "tfc-hostname", Shorthand := "", Var := .stringVar .TFCHostName,
      DefValue := .str o.TFCHostName, Usage := "Terraform Cloud/Enterprise Hostname" },
    { Name := "tfc-org", Shorthand := "", Var := .stringVar .TFCOrgName,
      DefValue := .str o.TFCOrgName, Usage := "Terraform Cloud Organization name" },
    { Name := "tfc-workspace", Shorthand := "", Var := .stringVar .TFCWorkspaceName,
      DefValue := .str o.TFPath, Usage := "Terraform Cloud Workspace name" },
    { Name := "tfc-run", Shorthand := "", Var := .boolVar .TFCNewRun,
      DefValue := .bool o.TFCNewRun, Usage := "Create new Terraform Cloud run" } ]

/-- The command `NewRootCmd` returns when `parseEnvs` produced `o`. -/
def rootCommand (o : opts) : Command :=
  { o := registered o, flags := rootFlags o, changed := [], helpVal := false, args := [] }

/-- A flag value that is not empty, holds no comma, no double quote and no
line feed (`\n`), and does not end in a carriage return (`\r`). A carriage
return elsewhere in the value is allowed. -/
abbrev plainValue (v : String) : Prop :=
  v ≠ "" ∧ (∀ c ∈ v.data, c ≠ ',' ∧ c ≠ '"' ∧ c ≠ '\n') ∧ v.data.getLast? ≠ some '\r'

/-- The arguments `flag v1 flag v2 ... flag vn`: the flag repeated, once for
each value, in the order of the values. -/
def repeated (flag : String) : List String → List String
  | [] => []
  | v :: vs => flag :: v :: repeated flag vs

/-- What parsing may change between two states of the command: the registered
flags stay, a flag once marked as changed stays marked, and a field none of
whose flags is marked as changed afterwards holds the value it held before. -/
def Command.framedBy (c c' : Command) : Prop :=
  c'.flags = c.flags ∧ (∀ n ∈ c.changed, n ∈ c'.changed) ∧
  ∀ f : Field, (∀ fl ∈ c.flags, fl.field = some f → fl.Name ∉ c'.changed) →
    c'.o.get f = c.o.get f

/-! ## Lemmas -/

/-! ### Registration -/

/-- The function `NewRootCmd` returns `rootCommand o` when `parseEnvs` succeeds with `o`. -/
theorem NewRootCmd_ret (env : Env) (o : opts)
    (h : newDefaultOpts.parseEnvs env = .ok o) : NewRootCmd env = .ret (rootCommand o) := by
  unfold NewRootCmd
  rw [h]
  simp only [Command.StringVarP, Command.BoolVarP, Command.BoolVar, Command.StringVar,
    Command.StringSliceVar, opts.setStr, opts.setBool, opts.setList, List.nil_append,
    List.cons_append]
  rfl

/-- The function `NewRootCmd` ends the process when `parseEnvs` fails. -/
theorem NewRootCmd_fatal (env : Env) (err : GoError)
    (h : newDefaultOpts.parseEnvs env = .error err) : NewRootCmd env = .fatal err.Error := by
  unfold NewRootCmd
  rw [h]

/-! ### Reading and writing fields -/

/-- Writing through a `*string` leaves every other field as it was. -/
theorem get_setStr_ne (o : opts) (p : StrField) (v : String) (f : Field) (h : f ≠ .str p) :
    (o.setStr p v).get f = o.get f := by
  cases p <;> rcases f with q | q | q <;> cases q <;> first | rfl | exact absurd rfl h

/-- Writing through a `*bool` leaves every other field as it was. -/
theorem get_setBool_ne (o : opts) (p : BoolField) (v : Bool) (f : Field) (h : f ≠ .bool p) :
    (o.setBool p v).get f = o.get f := by
  cases p <;> rcases f with q | q | q <;> cases q <;> first | rfl | exact absurd rfl h

/-- Writing through a `*[]string` leaves every other field as it was. -/
theorem get_setList_ne (o : opts) (p : ListField) (v : List String) (f : Field)
    (h : f ≠ .list p) : (o.setList p v).get f = o.get f := by
  cases p <;> rcases f with q | q | q <;> cases q <;> first | rfl | exact absurd rfl h

/-- Reading a `string` field after writing it gives what was written. -/
theorem get_setStr_same (o : opts) (p : StrField) (v : String) :
    (o.setStr p v).get (.str p) = .str v := by
  cases p <;> rfl

/-- Reading a `bool` field after writing it gives what was written. -/
theorem get_setBool_same (o : opts) (p : BoolField) (v : Bool) :
    (o.setBool p v).get (.bool p) = .bool v := by
  cases p <;> rfl

/-- Reading a `[]string` field after writing it gives what was written. -/
theorem get_setList_same (o : opts) (p : ListField) (v : List String) :
    (o.setList p v).get (.list p) = .list v := by
  cases p <;> rfl

/-! ### The environment resolver -/

/-- A step of `env.Parse` for the field `g` leaves every other field as it was. -/
theorem doParseField_frame (env : Env) (o a : opts) (f g : Field) (hne : f ≠ g)
    (h : doParseField env o g = .ok a) : a.get f = o.get f := by
  unfold doParseField at h
  simp only at h
  split at h
  · cases g with
    | str p =>
      simp only [envSet, Except.ok.injEq] at h
      rw [← h]; exact get_setStr_ne o p _ f hne
    | bool p =>
      simp only [envSet] at h
      split at h
      · simp only [Except.ok.injEq] at h
        rw [← h]; exact get_setBool_ne o p _ f hne
      · cases h
    | list p =>
      simp only [envSet, Except.ok.injEq] at h
      rw [← h]; exact get_setList_ne o p _ f hne
  · simp only [Except.ok.injEq] at h
    rw [← h]

/-- A step of `env.Parse` for a field whose variable is unset or empty does
nothing. -/
theorem doParseField_unset (env : Env) (o : opts) (f : Field) (h : envGet env f = "") :
    doParseField env o f = .ok o := by
  simp [doParseField, h]

/-- The value a step of `env.Parse` leaves in its own field is determined by
the field's variable and the field's value before. -/
theorem doParseField_same (env1 env2 : Env) (o1 o2 a b : opts) (f : Field)
    (henv : envGet env1 f = envGet env2 f) (hget : o1.get f = o2.get f)
    (h1 : doParseField env1 o1 f = .ok a) (h2 : doParseField env2 o2 f = .ok b) :
    a.get f = b.get f := by
  unfold doParseField at h1 h2
  simp only [henv] at h1
  simp only at h2
  split at h1
  · rename_i hv
    rw [if_pos hv] at h2
    cases f with
    | str p =>
      simp only [envSet, Except.ok.injEq] at h1 h2
      rw [← h1, ← h2, get_setStr_same, get_setStr_same]
    | bool p =>
      simp only [envSet] at h1 h2
      split at h1
      · rename_i bv hb
        simp only [hb, Except.ok.injEq] at h1 h2
        rw [← h1, ← h2, get_setBool_same, get_setBool_same]
      · cases h1
    | list p =>
      simp only [envSet, Except.ok.injEq] at h1 h2
      rw [← h1, ← h2, get_setList_same, get_setList_same]
  · rename_i hv
    rw [if_neg hv] at h2
    simp only [Except.ok.injEq] at h1 h2
    rw [← h1, ← h2]; exact hget

/-- A successful `env.Parse` over `g :: l` is a successful step for `g` followed by a
successful parse over `l`. -/
theorem foldlM_cons_ok (env : Env) (g : Field) (l : List Field) (o o' : opts)
    (h : (g :: l).foldlM (doParseField env) o = .ok o') :
    ∃ a, doParseField env o g = .ok a ∧ l.foldlM (doParseField env) a = .ok o' := by
  rw [List.foldlM_cons] at h
  cases hd : doParseField env o g with
  | error e => rw [hd] at h; cases h
  | ok a => rw [hd] at h; exact ⟨a, rfl, h⟩

/-- The call `env.Parse` over any list of fields leaves a field whose variable is unset or
empty as it was. -/
theorem envParse_unset (env : Env) (f : Field) (hf : envGet env f = "") (l : List Field) :
    ∀ o o', l.foldlM (doParseField env) o = .ok o' → o'.get f = o.get f := by
  induction l with
  | nil => intro o o' h; cases h; rfl
  | cons g l ih =>
    intro o o' h
    obtain ⟨a, ha, hl⟩ := foldlM_cons_ok env g l o o' h
    rw [ih a o' hl]
    by_cases hfg : f = g
    · subst hfg
      rw [doParseField_unset env o f hf] at ha
      cases ha; rfl
    · exact doParseField_frame env o a f g hfg ha

/-- The value `env.Parse` leaves in a field is the same in two environments that
agree on the variable of the field. -/
theorem envParse_agree (env1 env2 : Env) (f : Field) (henv : envGet env1 f = envGet env2 f)
    (l : List Field) :
    ∀ o1 o2 a b, o1.get f = o2.get f → l.foldlM (doParseField env1) o1 = .ok a →
      l.foldlM (doParseField env2) o2 = .ok b → a.get f = b.get f := by
  induction l with
  | nil => intro o1 o2 a b hget h1 h2; cases h1; cases h2; exact hget
  | cons g l ih =>
    intro o1 o2 a b hget h1 h2
    obtain ⟨a1, ha1, hl1⟩ := foldlM_cons_ok env1 g l o1 a h1
    obtain ⟨a2, ha2, hl2⟩ := foldlM_cons_ok env2 g l o2 b h2
    refine ih a1 a2 a b ?_ hl1 hl2
    by_cases hfg : f = g
    · subst hfg
      exact doParseField_same env1 env2 o1 o2 a1 a2 f henv hget ha1 ha2
    · rw [doParseField_frame env1 o1 a1 f g hfg ha1, doParseField_frame env2 o2 a2 f g hfg ha2]
      exact hget

/-- The method `parseEnvs` returns what `env.Parse` returns. -/
theorem parseEnvs_eq (env : Env) (o : opts) : o.parseEnvs env = envParse env o := by
  unfold opts.parseEnvs
  cases envParse env o <;> rfl

/-- When the step of one field fails on every record, `env.Parse` over a list with
that field fails. -/
theorem envParse_error (env : Env) (g : Field) (hg : ∀ o, ∃ e, doParseField env o g = .error e)
    (l : List Field) : g ∈ l → ∀ o, ∃ e, l.foldlM (doParseField env) o = .error e := by
  induction l with
  | nil => intro h; cases h
  | cons a l ih =>
    intro hmem o
    rw [List.foldlM_cons]
    cases hd : doParseField env o a with
    | error e => exact ⟨e, rfl⟩
    | ok o1 =>
      rcases List.mem_cons.mp hmem with rfl | hin
      · obtain ⟨e, he⟩ := hg o
        rw [he] at hd; cases hd
      · exact ih hin o1

/-- The list `allFields` holds every field of `opts`. -/
theorem mem_allFields (f : Field) : f ∈ allFields := by
  rcases f with q | q | q <;> cases q <;> simp [allFields]


/-! ### The CSV reader -/

/-- Nothing is cut at a separator that does not occur. -/
theorem cutAt_none (sep : Char) (l : List Char) (h : sep ∉ l) : cutAt sep l = none := by
  induction l with
  | nil => rfl
  | cons c cs ih =>
    have hc : c ≠ sep := fun e => h (e ▸ List.mem_cons_self _ _)
    have hcs : sep ∉ cs := fun e => h (List.mem_cons_of_mem _ e)
    simp [cutAt, hc, ih hcs]

/-- A list all of whose elements satisfy `p` is its own longest such beginning. -/
theorem span_all (p : Char → Bool) (l : List Char) (h : ∀ c ∈ l, p c = true) :
    l.span p = (l, []) := by
  rw [List.span_eq_take_drop, List.takeWhile_eq_self_iff.mpr h, List.dropWhile_eq_nil_iff.mpr h]

/-- The two parts `cutAt` returns and the separator make up the line. -/
theorem cutAt_length (sep : Char) (l pre post : List Char)
    (h : cutAt sep l = some (pre, post)) : pre.length + post.length + 1 = l.length := by
  induction l generalizing pre post with
  | nil => simp [cutAt] at h
  | cons c cs ih =>
    unfold cutAt at h
    split at h
    · simp only [Option.some.injEq, Prod.mk.injEq] at h
      obtain ⟨h1, h2⟩ := h
      subst h1 h2
      simp
    · cases hc : cutAt sep cs with
      | none => simp [hc] at h
      | some pq =>
        obtain ⟨p, q⟩ := pq
        simp only [hc, Option.some.injEq, Prod.mk.injEq] at h
        obtain ⟨h1, h2⟩ := h
        subst h1 h2
        have := ih p q hc
        simp only [List.length_cons]
        omega

/-- Replacing a final `\r` by `\n` keeps the length of a line. -/
theorem dropLast_line_length (l : List Char) (hl : l.getLast? = some '\r') :
    (l.dropLast ++ ['\n']).length = l.length := by
  have hne : l ≠ [] := by
    intro e; rw [e] at hl; cases hl
  simp only [List.length_append, List.length_dropLast, List.length_singleton]
  have : 0 < l.length := List.length_pos.mpr hne
  omega

/-- The function `readLine` never returns more than it consumes, and it consumes at least
one character. -/
theorem readLine_length (input line rest : List Char)
    (h : readLine input = some (line, rest)) :
    line.length + rest.length ≤ input.length ∧ rest.length < input.length := by
  unfold readLine at h
  split at h
  · cases h
  · rename_i hne
    have hpos : 0 < input.length := List.length_pos.mpr hne
    have hspan := List.span_eq_take_drop (fun c => decide (c ≠ '\n')) input
    have hlen : (input.takeWhile (fun c => decide (c ≠ '\n'))).length
        + (input.dropWhile (fun c => decide (c ≠ '\n'))).length = input.length := by
      rw [← List.length_append, List.takeWhile_append_dropWhile]
    split at h
    · rename_i l heq
      rw [hspan] at heq
      simp only [Prod.mk.injEq] at heq
      obtain ⟨h1, h2⟩ := heq
      rw [h1, h2] at hlen
      simp only [Option.some.injEq, Prod.mk.injEq] at h
      obtain ⟨h3, h4⟩ := h
      subst h4
      refine ⟨?_, hpos⟩
      rw [← h3]
      split
      · simp only [List.length_dropLast, List.length_nil]; omega
      · simp only [List.length_nil]; omega
    · rename_i l c rest' heq
      rw [hspan] at heq
      simp only [Prod.mk.injEq] at heq
      obtain ⟨h1, h2⟩ := heq
      rw [h1, h2] at hlen
      simp only [List.length_cons] at hlen
      simp only [Option.some.injEq, Prod.mk.injEq] at h
      obtain ⟨h3, h4⟩ := h
      subst h4
      refine ⟨?_, by omega⟩
      rw [← h3]
      split
      · rename_i hl
        rw [dropLast_line_length l hl]; omega
      · simp only [List.length_append, List.length_singleton]; omega

/-- The step bound of `parseRecord` is never reached when it exceeds the
number of characters left. -/
theorem parseRecord_bound (n : Nat) :
    ∀ (quoted : Option (List Char)) (line input : List Char) (record : List String),
      line.length + input.length < n →
      parseRecord n quoted line input record ≠ .error (.leaf "csv: step bound reached") := by
  induction n with
  | zero => intro _ _ _ _ h; omega
  | succ n ih =>
    intro quoted line input record hlt
    cases quoted with
    | none =>
      unfold parseRecord
      split
      · -- non-quoted field
        cases hc : cutAt ',' line with
        | none =>
          simp only
          split
          · simp [ErrBareQuote]
          · simp
        | some pq =>
          obtain ⟨pre, post⟩ := pq
          simp only
          have hl := cutAt_length ',' line pre post hc
          split
          · simp [ErrBareQuote]
          · exact ih none post input _ (by omega)
      · rename_i hq
        have hne : line ≠ [] := by
          intro e; rw [e] at hq; simp at hq
        have hpos : 0 < line.length := List.length_pos.mpr hne
        exact ih (some []) (line.drop 1) input record (by
          simp only [List.length_drop]; omega)
    | some buf =>
      unfold parseRecord
      cases hc : cutAt '"' line with
      | some pq =>
        obtain ⟨pre, post⟩ := pq
        have hl := cutAt_length '"' line pre post hc
        simp only
        split
        · rename_i rest'
          simp only [List.length_cons] at hl
          exact ih _ rest' input record (by omega)
        · rename_i rest'
          simp only [List.length_cons] at hl
          exact ih none rest' input _ (by omega)
        · split
          · simp
          · simp [ErrQuote]
      | none =>
        simp only
        split
        · rename_i hne
          have hpos : 0 < line.length := List.length_pos.mpr hne
          cases hr : readLine input with
          | none =>
            simp only
            exact ih _ [] [] record (by simp only [List.length_nil]; omega)
          | some lr =>
            obtain ⟨line1, input1⟩ := lr
            have := (readLine_length input line1 input1 hr).1
            simp only
            exact ih _ line1 input1 record (by omega)
        · simp [ErrQuote]

/-- The function `readNonEmptyLine` gives the same result for every step bound that
exceeds the length of the input. -/
theorem readNonEmptyLine_bound (n m : Nat) :
    ∀ input : List Char, input.length < n → input.length < m →
      readNonEmptyLine n input = readNonEmptyLine m input := by
  induction n generalizing m with
  | zero => intro _ h; omega
  | succ n ih =>
    intro input hn hm
    cases m with
    | zero => omega
    | succ m =>
      unfold readNonEmptyLine
      cases hr : readLine input with
      | none => rfl
      | some lr =>
        obtain ⟨line, rest⟩ := lr
        have := (readLine_length input line rest hr).2
        simp only
        split
        · exact ih m rest (by omega) (by omega)
        · rfl

/-- What `readNonEmptyLine` returns is never longer than the input. -/
theorem readNonEmptyLine_length (n : Nat) :
    ∀ (input line rest : List Char), readNonEmptyLine n input = some (line, rest) →
      line.length + rest.length ≤ input.length := by
  induction n with
  | zero => intro _ _ _ h; simp [readNonEmptyLine] at h
  | succ n ih =>
    intro input line rest h
    unfold readNonEmptyLine at h
    cases hr : readLine input with
    | none => simp [hr] at h
    | some lr =>
      obtain ⟨line1, rest1⟩ := lr
      have hlen := readLine_length input line1 rest1 hr
      simp only [hr] at h
      split at h
      · have := ih rest1 line rest h
        omega
      · simp only [Option.some.injEq, Prod.mk.injEq] at h
        obtain ⟨h1, h2⟩ := h
        subst h1 h2
        exact hlen.1

/-- The CSV reader never stops for lack of steps: its step bound is an
artefact of the model that no input reaches. -/
theorem csvRead_total (input : List Char) :
    csvRead input ≠ .error (.leaf "csv: step bound reached") := by
  unfold csvRead
  cases h : readNonEmptyLine (input.length + 1) input with
  | none => simp [EOF]
  | some lr =>
    obtain ⟨line, rest⟩ := lr
    have := readNonEmptyLine_length _ input line rest h
    simp only
    exact parseRecord_bound _ none line rest [] (by omega)

/-- The CSV reader returns a line without comma, quote and line feed that does
not end in a carriage return as one field. -/
theorem csvRead_plain (l : List Char) (hl : l ≠ [])
    (hch : ∀ c ∈ l, c ≠ ',' ∧ c ≠ '"' ∧ c ≠ '\n')
    (hlastr : l.getLast? ≠ some '\r') :
    csvRead l = .ok [String.mk l] := by
  have hnl : ∀ c ∈ l, (decide (c ≠ '\n')) = true := by
    intro c hc; simpa using (hch c hc).2.2
  have hlastn : l.getLast? ≠ some '\n' := by
    intro e; exact (hch _ (List.mem_of_getLast?_eq_some e)).2.2 rfl
  have hhead : l.head? ≠ some '"' := by
    intro e; exact (hch _ (List.mem_of_mem_head? e)).2.1 rfl
  have hcomma : ',' ∉ l := fun e => (hch _ e).1 rfl
  have hquote : '"' ∉ l := fun e => (hch _ e).2.1 rfl
  have hlen : l.length ≠ 0 := by
    intro e; exact hl (List.length_eq_zero.mp e)
  have hline : readLine l = some (l, []) := by
    unfold readLine
    rw [if_neg hl, span_all _ _ hnl]
    simp [hlastr]
  have hfirst : readNonEmptyLine (l.length + 1) l = some (l, []) := by
    simp [readNonEmptyLine, hline, lengthNL, hlastn, hlen]
  unfold csvRead
  rw [hfirst]
  simp [parseRecord, hhead, cutAt_none _ _ hcomma, lengthNL, hlastn, hquote]

/-- The function `readAsCSV` reads a plain value as the one-element list of that value. -/
theorem readAsCSV_plain (v : String) (h : plainValue v) : readAsCSV v = .ok [v] := by
  obtain ⟨hne, hch, hlast⟩ := h
  have hl : v.data ≠ [] := by
    intro e
    apply hne
    have : v = String.mk v.data := rfl
    rw [this, e]
  unfold readAsCSV
  rw [if_neg hne, csvRead_plain v.data hl hch hlast]

/-- A value that holds a carriage return, but not at its end, is plain, and
`readAsCSV` keeps it as it is; a value that ends in a carriage return loses
it. -/
theorem readAsCSV_carriage_return :
    plainValue "a\rb" ∧ plainValue "\ra" ∧
    readAsCSV "a\rb" = .ok ["a\rb"] ∧ readAsCSV "\ra" = .ok ["\ra"] ∧
    readAsCSV "a\r" = .ok ["a"] := by
  decide!

/-- Setting a string-slice flag to a plain value: the value replaces the list
when the flag is set for the first time and is appended afterwards. -/
theorem Set_slice_plain (c : Command) (fl : Flag) (p : ListField) (v : String)
    (hvar : fl.Var = .stringSliceVar p) (hv : plainValue v) :
    ∃ c', c.Set fl v = .ok c' ∧ c'.flags = c.flags ∧ fl.Name ∈ c'.changed ∧
      c'.o.getList p = (if fl.Name ∈ c.changed then c.o.getList p ++ [v] else [v]) := by
  unfold Command.Set
  simp only [hvar, readAsCSV_plain v hv]
  by_cases hc : fl.Name ∈ c.changed
  · simp only [if_pos hc]
    refine ⟨_, rfl, rfl, hc, ?_⟩
    cases p <;> rfl
  · simp only [if_neg hc]
    refine ⟨_, rfl, rfl, by simp, ?_⟩
    cases p <;> rfl

/-- One step of `parseArgs`: a long flag that takes a value, followed by its
value in the next argument. -/
theorem parseArgs_long_value (c : Command) (s : String) (nm : List Char) (fl : Flag)
    (v : String) (rest : List String)
    (hs : s.data = '-' :: '-' :: nm)
    (hhead : nm.head? ≠ none ∧ nm.head? ≠ some '-' ∧ nm.head? ≠ some '=')
    (hcut : cutAt '=' nm = none)
    (hlook : c.lookup (String.mk nm) = some fl)
    (hno : fl.NoOptDefVal = "") :
    c.parseArgs (s :: v :: rest) =
      match c.Set fl v with
      | .error err => .error err
      | .ok c' => c'.parseArgs rest := by
  have hlong : c.parseLongArg s (some v) = (c.Set fl v).map (fun c' => (c', true)) := by
    unfold Command.parseLongArg
    simp only [hs, List.drop_succ_cons, List.drop_zero, hcut, hlook, hno]
    simp [hhead.1, hhead.2.1, hhead.2.2]
  have hnm : nm ≠ [] := by
    intro e
    exact hhead.1 (by rw [e]; rfl)
  rw [Command.parseArgs]
  simp only [hs, List.head?_cons, List.drop_succ_cons, List.drop_zero, List.length_cons, hlong]
  cases hset : c.Set fl v with
  | error err => simp [Except.map, hnm]
  | ok c' => simp [Except.map, hnm]


/-- Parsing `flag v1 flag v2 ...` for a string-slice flag and plain values:
the pass succeeds, keeps the registered flags, and the flag's list is the
values in order, appended to the old list if the flag was set before. -/
theorem parseArgs_repeated (s : String) (nm : List Char) (fl : Flag) (p : ListField)
    (hs : s.data = '-' :: '-' :: nm)
    (hhead : nm.head? ≠ none ∧ nm.head? ≠ some '-' ∧ nm.head? ≠ some '=')
    (hcut : cutAt '=' nm = none)
    (hvar : fl.Var = .stringSliceVar p) :
    ∀ (vs : List String) (c : Command), (∀ v ∈ vs, plainValue v) →
      c.lookup (String.mk nm) = some fl →
      ∃ c', c.parseArgs (repeated s vs) = .ok c' ∧
        c'.o.getList p =
          (if fl.Name ∈ c.changed then c.o.getList p ++ vs
           else if vs = [] then c.o.getList p else vs) := by
  intro vs
  induction vs with
  | nil =>
    intro c _ _
    refine ⟨c, rfl, ?_⟩
    simp
  | cons v vs ih =>
    intro c hplain hlook
    have hno : fl.NoOptDefVal = "" := by simp [Flag.NoOptDefVal, hvar]
    obtain ⟨c1, hset, hflags, hmem, hlist⟩ :=
      Set_slice_plain c fl p v hvar (hplain v (List.mem_cons_self _ _))
    have hlook1 : c1.lookup (String.mk nm) = some fl := by
      unfold Command.lookup at hlook ⊢
      rw [hflags]; exact hlook
    obtain ⟨c2, hparse, hres⟩ :=
      ih c1 (fun w hw => hplain w (List.mem_cons_of_mem _ hw)) hlook1
    refine ⟨c2, ?_, ?_⟩
    · show c.parseArgs (s :: v :: repeated s vs) = .ok c2
      rw [parseArgs_long_value c s nm fl v _ hs hhead hcut hlook hno, hset]
      exact hparse
    · rw [hres, if_pos hmem, hlist]
      by_cases hc : fl.Name ∈ c.changed
      · simp [hc]
      · simp [hc]

/-- The flag found under the name `tf-var-files`. -/
theorem lookup_tf_var_files (o : opts) :
    (rootCommand o).InitDefaultHelpFlag.lookup "tf-var-files" =
      some { Name := "tf-var-files", Shorthand := "", Var := .stringSliceVar .TFVarFiles,
             DefValue := .list o.TFVarFiles, Usage := "Path to *.tfvars files" } := by
  simp [Command.lookup, Command.InitDefaultHelpFlag, rootCommand, rootFlags, List.find?]

/-- The flag found under the name `tf-vars`. -/
theorem lookup_tf_vars (o : opts) :
    (rootCommand o).InitDefaultHelpFlag.lookup "tf-vars" =
      some { Name := "tf-vars", Shorthand := "", Var := .stringSliceVar .TFVars,
             DefValue := .list o.TFVars, Usage := "Terraform variable (key=value)" } := by
  simp [Command.lookup, Command.InitDefaultHelpFlag, rootCommand, rootFlags, List.find?]

/-- The flag found under the name `tf-backend-configs`. -/
theorem lookup_tf_backend_configs (o : opts) :
    (rootCommand o).InitDefaultHelpFlag.lookup "tf-backend-configs" =
      some { Name := "tf-backend-configs", Shorthand := "",
             Var := .stringSliceVar .TFBackendConfigs,
             DefValue := .list o.TFBackendConfigs, Usage := "Path to *.tfbackend files" } := by
  simp [Command.lookup, Command.InitDefaultHelpFlag, rootCommand, rootFlags, List.find?]

/-- The resolved list of a string-slice flag given repeatedly with plain
values, for a flag found in the root command under the name `nm`. -/
theorem resolve_repeated (env : Env) (o : opts) (s : String) (nm : List Char) (fl : Flag)
    (p : ListField) (vs : List String)
    (henv : newDefaultOpts.parseEnvs env = .ok o)
    (hs : s.data = '-' :: '-' :: nm)
    (hhead : nm.head? ≠ none ∧ nm.head? ≠ some '-' ∧ nm.head? ≠ some '=')
    (hcut : cutAt '=' nm = none)
    (hvar : fl.Var = .stringSliceVar p)
    (hlook : (rootCommand o).InitDefaultHelpFlag.lookup (String.mk nm) = some fl)
    (hne : vs ≠ []) (hplain : ∀ v ∈ vs, plainValue v) :
    ∃ r, resolve env (repeated s vs) = some r ∧ r.getList p = vs := by
  obtain ⟨c', hparse, hres⟩ :=
    parseArgs_repeated s nm fl p hs hhead hcut hvar vs (rootCommand o).InitDefaultHelpFlag
      hplain hlook
  refine ⟨c'.o, ?_, ?_⟩
  · unfold resolve
    rw [NewRootCmd_ret env o henv]
    simp only [Command.ParseFlags, hparse]
  · rw [hres]
    simp [Command.InitDefaultHelpFlag, rootCommand, hne]

/-- Without arguments the resolved configuration is the record `parseEnvs`
produced, overwritten by the registrations. -/
theorem resolve_without_arguments (env : Env) (o : opts)
    (h : newDefaultOpts.parseEnvs env = .ok o) : resolve env [] = some (registered o) := by
  unfold resolve
  rw [NewRootCmd_ret env o h]
  rfl

/-- Nothing changed: `framedBy` is reflexive. -/
theorem framedBy_refl (c : Command) : c.framedBy c :=
  ⟨rfl, fun _ h => h, fun _ _ => rfl⟩

/-- Two steps of parsing in a row: `framedBy` is transitive. -/
theorem framedBy_trans (a b c : Command) (h1 : a.framedBy b) (h2 : b.framedBy c) :
    a.framedBy c := by
  obtain ⟨hf1, hc1, hg1⟩ := h1
  obtain ⟨hf2, hc2, hg2⟩ := h2
  refine ⟨hf2.trans hf1, fun n hn => hc2 n (hc1 n hn), ?_⟩
  intro f hf
  rw [hg2 f (by rw [hf1]; exact hf)]
  exact hg1 f (fun fl hfl hfield hmem => hf fl hfl hfield (hc2 _ hmem))

/-- Collecting non-flag arguments changes no flag and no field. -/
theorem framedBy_args (c : Command) (args : List String) :
    c.framedBy { c with args := args } :=
  ⟨rfl, fun _ h => h, fun _ _ => rfl⟩

/-- Setting a registered flag changes at most the field the flag is bound to,
and marks the flag as changed. -/
theorem Set_framedBy (c c' : Command) (fl : Flag) (v : String) (hfl : fl ∈ c.flags)
    (h : c.Set fl v = .ok c') : c.framedBy c' := by
  have hmark : ∀ n ∈ c.changed,
      n ∈ (if fl.Name ∈ c.changed then c.changed else c.changed ++ [fl.Name]) := by
    intro n hn
    split
    · exact hn
    · exact List.mem_append_left _ hn
  have hself : fl.Name ∈ (if fl.Name ∈ c.changed then c.changed else c.changed ++ [fl.Name]) := by
    split
    · assumption
    · simp
  unfold Command.Set at h
  cases hvar : fl.Var with
  | stringVar p =>
    simp only [hvar, Except.ok.injEq] at h
    subst h
    refine ⟨rfl, hmark, fun f hf => ?_⟩
    refine get_setStr_ne c.o p v f (fun e => hf fl hfl ?_ hself)
    simp [Flag.field, hvar, e]
  | boolVar p =>
    simp only [hvar] at h
    split at h
    · simp only [Except.ok.injEq] at h
      subst h
      refine ⟨rfl, hmark, fun f hf => ?_⟩
      refine get_setBool_ne c.o p _ f (fun e => hf fl hfl ?_ hself)
      simp [Flag.field, hvar, e]
    · cases h
  | stringSliceVar p =>
    simp only [hvar] at h
    split at h
    · cases h
    · split at h
      · rename_i hc
        simp only [Except.ok.injEq] at h
        subst h
        refine ⟨rfl, fun _ hn => hn, fun f hf => ?_⟩
        refine get_setList_ne c.o p _ f (fun e => hf fl hfl ?_ hc)
        simp [Flag.field, hvar, e]
      · simp only [Except.ok.injEq] at h
        subst h
        refine ⟨rfl, fun _ hn => List.mem_append_left _ hn, fun f hf => ?_⟩
        refine get_setList_ne c.o p _ f (fun e => hf fl hfl ?_ (by simp))
        simp [Flag.field, hvar, e]
  | help =>
    simp only [hvar] at h
    split at h
    · simp only [Except.ok.injEq] at h
      subst h
      exact ⟨rfl, hmark, fun f _ => rfl⟩
    · cases h

/-- As `Set_framedBy`, for the result of `Set` paired with a boolean. -/
theorem Set_map_framedBy (c c' : Command) (fl : Flag) (v : String) (b used : Bool)
    (hfl : fl ∈ c.flags)
    (h : (c.Set fl v).map (fun x => (x, b)) = .ok (c', used)) : c.framedBy c' := by
  cases hs : c.Set fl v with
  | error e => rw [hs] at h; cases h
  | ok c1 =>
    rw [hs] at h
    simp only [Except.map, Except.ok.injEq, Prod.mk.injEq] at h
    rw [← h.1]
    exact Set_framedBy c c1 fl v hfl hs

/-- A long flag changes at most the field of the flag it names. -/
theorem parseLongArg_framedBy (c c' : Command) (s : String) (next : Option String)
    (used : Bool) (h : c.parseLongArg s next = .ok (c', used)) : c.framedBy c' := by
  unfold Command.parseLongArg at h
  simp only at h
  split at h
  · cases h
  · cases hl : c.lookup (String.mk (match cutAt '=' (s.data.drop 2) with
        | some (n, v) => (n, some v)
        | none => (s.data.drop 2, none)).1) with
    | none =>
      simp only [hl] at h
      split at h <;> cases h
    | some fl =>
      have hfl : fl ∈ c.flags := List.mem_of_find?_eq_some hl
      simp only [hl] at h
      split at h
      · exact Set_map_framedBy c c' fl _ _ used hfl h
      · split at h
        · exact Set_map_framedBy c c' fl _ _ used hfl h
        · split at h
          · exact Set_map_framedBy c c' fl _ _ used hfl h
          · cases h

/-- A series of shorthands changes at most the fields of the flags it names. -/
theorem parseShortArg_framedBy (shorthands : List Char) :
    ∀ (c c' : Command) (next : Option String) (used : Bool),
      c.parseShortArg shorthands next = .ok (c', used) → c.framedBy c' := by
  induction shorthands with
  | nil =>
    intro c c' next used h
    simp only [Command.parseShortArg, Except.ok.injEq, Prod.mk.injEq] at h
    rw [← h.1]; exact framedBy_refl c
  | cons ch rest ih =>
    intro c c' next used h
    unfold Command.parseShortArg at h
    split at h
    · simp only [Except.ok.injEq, Prod.mk.injEq] at h
      rw [← h.1]; exact framedBy_refl c
    · cases hl : c.lookupShorthand ch with
      | none =>
        simp only [hl] at h
        split at h <;> cases h
      | some fl =>
        have hfl : fl ∈ c.flags := List.mem_of_find?_eq_some hl
        simp only [hl] at h
        split at h
        · exact Set_map_framedBy c c' fl _ _ used hfl h
        · split at h
          · cases hs : c.Set fl fl.NoOptDefVal with
            | error e => simp only [hs] at h; cases h
            | ok c1 =>
              simp only [hs] at h
              exact framedBy_trans c c1 c' (Set_framedBy c c1 fl _ hfl hs) (ih c1 c' next used h)
          · split at h
            · exact Set_map_framedBy c c' fl _ _ used hfl h
            · split at h
              · exact Set_map_framedBy c c' fl _ _ used hfl h
              · cases h

/-- Parsing an argument list changes at most the fields of the flags it sets. -/
theorem parseArgs_framedBy (n : Nat) :
    ∀ (args : List String) (c c' : Command), args.length ≤ n →
      c.parseArgs args = .ok c' → c.framedBy c' := by
  induction n with
  | zero =>
    intro args c c' hlen h
    have : args = [] := List.length_eq_zero.mp (Nat.le_zero.mp hlen)
    subst this
    simp only [Command.parseArgs, Except.ok.injEq] at h
    rw [← h]; exact framedBy_refl c
  | succ n ih =>
    intro args c c' hlen h
    cases args with
    | nil =>
      simp only [Command.parseArgs, Except.ok.injEq] at h
      rw [← h]; exact framedBy_refl c
    | cons s rest =>
      have hrest : rest.length ≤ n := by
        simp only [List.length_cons] at hlen; omega
      rw [Command.parseArgs] at h
      split at h
      · exact framedBy_trans _ _ _ (framedBy_args c _) (ih rest _ c' hrest h)
      · split at h
        · simp only [Except.ok.injEq] at h
          rw [← h]; exact framedBy_args c _
        · simp only at h
          have hstep : ∀ c1 used,
              (if (s.data.drop 1).head? = some '-' then c.parseLongArg s rest.head?
                else c.parseShortArg (s.data.drop 1) rest.head?) = .ok (c1, used) →
              c.framedBy c1 := by
            intro c1 used hr
            split at hr
            · exact parseLongArg_framedBy c c1 s _ used hr
            · exact parseShortArg_framedBy _ c c1 _ used hr
          split at h
          · cases h
          · rename_i c1 hr
            exact framedBy_trans _ _ _ (hstep c1 false hr) (ih rest c1 c' hrest h)
          · rename_i c1 hr
            have h1 := hstep c1 true hr
            split at h
            · simp only [Except.ok.injEq] at h
              rw [← h]; exact h1
            · rename_i a rest'
              have hrest' : rest'.length ≤ n := by
                simp only [List.length_cons] at hrest; omega
              exact framedBy_trans _ _ _ h1 (ih rest' c1 c' hrest' h)

/-- A line is cut at the first separator. -/
theorem cutAt_append (sep : Char) (nm post : List Char) (h : sep ∉ nm) :
    cutAt sep (nm ++ sep :: post) = some (nm, post) := by
  induction nm with
  | nil => simp [cutAt]
  | cons c cs ih =>
    have hc : c ≠ sep := fun e => h (e ▸ List.mem_cons_self _ _)
    have hcs : sep ∉ cs := fun e => h (List.mem_cons_of_mem _ e)
    simp [cutAt, hc, ih hcs]

/-- One step of `parseArgs`: the single argument `--name=value`. -/
theorem parseArgs_long_eq (c : Command) (s : String) (nm : List Char) (fl : Flag)
    (v : String)
    (hs : s.data = '-' :: '-' :: (nm ++ '=' :: v.data))
    (hhead : nm.head? ≠ none ∧ nm.head? ≠ some '-' ∧ nm.head? ≠ some '=')
    (hcut : '=' ∉ nm)
    (hlook : c.lookup (String.mk nm) = some fl) :
    c.parseArgs [s] = c.Set fl v := by
  have hnm : nm ≠ [] := by
    intro e
    exact hhead.1 (by rw [e]; rfl)
  obtain ⟨a, as, rfl⟩ := List.exists_cons_of_ne_nil hnm
  have hlong : c.parseLongArg s none = (c.Set fl v).map (fun c' => (c', false)) := by
    unfold Command.parseLongArg
    simp only [hs, List.drop_succ_cons, List.drop_zero, cutAt_append '=' _ v.data hcut, hlook]
    simp only [List.cons_append, List.head?_cons] at hhead ⊢
    simp [hhead.2.1, hhead.2.2]
  rw [Command.parseArgs]
  simp only [hs, List.head?_cons, List.drop_succ_cons, List.drop_zero, List.length_cons,
    List.head?_nil, hlong]
  cases hset : c.Set fl v with
  | error err => simp [Except.map, Command.parseArgs]
  | ok c' => simp [Except.map, Command.parseArgs]

/-- Each of the seventeen flags is found under its own name, and its name is
a well-formed long flag name. -/
theorem rootFlags_lookup (o : opts) (fl : Flag) (hfl : fl ∈ rootFlags o) :
    (fl.Name.data.head? ≠ none ∧ fl.Name.data.head? ≠ some '-' ∧
      fl.Name.data.head? ≠ some '=') ∧
    '=' ∉ fl.Name.data ∧
    (rootCommand o).InitDefaultHelpFlag.lookup (String.mk fl.Name.data) = some fl := by
  simp only [rootFlags, List.mem_cons, List.mem_singleton, List.not_mem_nil, or_false] at hfl
  rcases hfl with h | h | h | h | h | h | h | h | h | h | h | h | h | h | h | h | h <;>
    subst h <;>
    dsimp only <;>
    refine ⟨by decide, by decide, ?_⟩ <;>
    simp [Command.lookup, Command.InitDefaultHelpFlag, rootCommand, rootFlags, List.find?]

/-- For each of the seventeen flags, parsing the single argument
`--name=value` is setting that flag to `value`. -/
theorem ParseFlags_single (o : opts) (fl : Flag) (hfl : fl ∈ rootFlags o) (v : String) :
    (rootCommand o).ParseFlags ["--" ++ fl.Name ++ "=" ++ v] =
      (rootCommand o).InitDefaultHelpFlag.Set fl v := by
  obtain ⟨hhead, hcut, hlook⟩ := rootFlags_lookup o fl hfl
  unfold Command.ParseFlags
  have hs : ("--" ++ fl.Name ++ "=" ++ v).data =
      '-' :: '-' :: (fl.Name.data ++ '=' :: v.data) := by
    simp only [String.data_append]
    show ['-', '-'] ++ fl.Name.data ++ ['='] ++ v.data = _
    simp
  exact parseArgs_long_eq _ _ fl.Name.data fl v hs hhead hcut hlook

/-- The flag's value wins: for every environment `parseEnvs` accepts and each
of the seventeen flags, the argument `--name=value` resolves the field the
flag is bound to to the value (for a bool flag the boolean the text denotes,
for a string-slice flag the CSV record the text holds) and every other field
to what the registrations left in it. -/
theorem flag_value_wins (env : Env) (o : opts) (fl : Flag) (v : String)
    (henv : newDefaultOpts.parseEnvs env = .ok o) (hfl : fl ∈ rootFlags o) :
    (∀ p, fl.Var = .stringVar p →
      resolve env ["--" ++ fl.Name ++ "=" ++ v] = some ((registered o).setStr p v)) ∧
    (∀ p b, fl.Var = .boolVar p → parseBool v = some b →
      resolve env ["--" ++ fl.Name ++ "=" ++ v] = some ((registered o).setBool p b)) ∧
    (∀ p l, fl.Var = .stringSliceVar p → readAsCSV v = .ok l →
      resolve env ["--" ++ fl.Name ++ "=" ++ v] = some ((registered o).setList p l)) := by
  have hres : resolve env ["--" ++ fl.Name ++ "=" ++ v] =
      match (rootCommand o).InitDefaultHelpFlag.Set fl v with
      | .error _ => none
      | .ok c => some c.o := by
    unfold resolve
    rw [NewRootCmd_ret env o henv]
    simp only [ParseFlags_single o fl hfl v]
  rw [hres]
  refine ⟨?_, ?_, ?_⟩
  · intro p hvar
    simp [Command.Set, hvar, Command.InitDefaultHelpFlag, rootCommand]
  · intro p b hvar hb
    simp [Command.Set, hvar, hb, Command.InitDefaultHelpFlag, rootCommand]
  · intro p l hvar hl
    simp [Command.Set, hvar, hl, Command.InitDefaultHelpFlag, rootCommand]

/-- A field none of whose flags was set by the command line resolves to what
the registrations left in it. -/
theorem ParseFlags_keeps_unset (o : opts) (args : List String) (c : Command) (f : Field)
    (h : (rootCommand o).ParseFlags args = .ok c)
    (hf : ∀ fl ∈ rootFlags o, fl.field = some f → fl.Name ∉ c.changed) :
    c.o.get f = (registered o).get f := by
  have hfr := parseArgs_framedBy args.length args _ c (Nat.le_refl _) h
  refine hfr.2.2 f ?_
  intro fl hfl hfield
  simp only [Command.InitDefaultHelpFlag, rootCommand, List.mem_append, List.mem_singleton]
    at hfl
  rcases hfl with hfl | hfl
  · exact hf fl hfl hfield
  · subst hfl
    simp [Flag.field] at hfield

/-! ## The claims -/

/-- C1 (neither environment nor flag given). With an empty environment and the
arguments `--name demo --tf-vars env=prod` the resolved configuration has
`Name = "demo"` and `TFVars = ["env=prod"]`, but `WorkingDir` is `"rover"`
and `TFCWorkspaceName` is `"/bin/terraform"`, where `newDefaultOpts` gives
`"."` and `""`: the registrations of `working-dir` (with `o.Name`) and of
`tf-workspace` (with `o.TFPath`) overwrite the defaults. -/
theorem C1_defaults_overwritten_by_registration :
    resolve emptyEnv ["--name", "demo", "--tf-vars", "env=prod"] =
      some { newDefaultOpts with
             Name := "demo", TFVars := ["env=prod"],
             WorkingDir := "rover", TFCWorkspaceName := "/bin/terraform" } ∧
    newDefaultOpts.WorkingDir = "." ∧ newDefaultOpts.TFCWorkspaceName = "" := by
  decide!

/-- C2 (environment only). With `ROVER_ZIP_FILE_NAME=x` and no arguments the
resolved `ZipFileName` is `"rover"`, not `"x"`, although `parseEnvs` had
stored `"x"`; with `ROVER_GEN_IMAGE=true` and no arguments the resolved
`GenImage` is `false`, although `parseEnvs` had stored `true`: the
registrations of `zip-file` (with `o.Name`) and `gen-image` (with
`o.ShowSensitive`) overwrite the value taken from the environment. -/
theorem C2_environment_value_overwritten_by_registration :
    (newDefaultOpts.parseEnvs (singleEnv "ROVER_ZIP_FILE_NAME" "x")).toOption.map
        (fun o => o.ZipFileName) = some "x" ∧
    (resolve (singleEnv "ROVER_ZIP_FILE_NAME" "x") []).map (fun o => o.ZipFileName)
      = some "rover" ∧
    (newDefaultOpts.parseEnvs (singleEnv "ROVER_GEN_IMAGE" "true")).toOption.map
        (fun o => o.GenImage) = some true ∧
    (resolve (singleEnv "ROVER_GEN_IMAGE" "true") []).map (fun o => o.GenImage)
      = some false := by
  decide!

/-- C3 (flag over environment). With `ROVER_TF_WORKSPACE=staging` and the
arguments `--tf-workspace dev` the resolved `TFWorkspace` is `"staging"`, not
`"dev"`, and the flag has changed another field, `TFCWorkspaceName`, to
`"dev"`: `tf-workspace` is bound to `&o.TFCWorkspaceName`. The field
`Listener` has no flag: `--listener 127.0.0.1:80` is rejected as an unknown
flag. -/
theorem C3_tf_workspace_flag_sets_other_field :
    resolve (singleEnv "ROVER_TF_WORKSPACE" "staging") ["--tf-workspace", "dev"] =
      some { newDefaultOpts with
             TFWorkspace := "staging", TFCWorkspaceName := "dev", WorkingDir := "rover" } ∧
    (Execute emptyEnv ["--listener", "127.0.0.1:80"] none).exit =
      .ret (some (errorfERROR (.leaf "unknown flag: --listener"))) := by
  decide!

/-- C4 (one flag per field). Whenever `NewRootCmd` returns a command, it has
17 flags for the 18 fields of `opts`: no flag is bound to `Listener`, none to
`TFWorkspace`, and two flags, `tf-workspace` and `tfc-workspace`, are bound to
`TFCWorkspaceName`. -/
theorem C4_flags_not_one_per_field (env : Env) (cmd : Command)
    (h : NewRootCmd env = .ret cmd) :
    cmd.flags.length = 17 ∧ allFields.length = 18 ∧
    (∀ fl ∈ cmd.flags, fl.field ≠ some (.str .Listener)) ∧
    (∀ fl ∈ cmd.flags, fl.field ≠ some (.str .TFWorkspace)) ∧
    (cmd.flags.filter (fun fl => fl.field = some (.str .TFCWorkspaceName))).map
      (fun fl => fl.Name) = ["tf-workspace", "tfc-workspace"] := by
  cases hp : newDefaultOpts.parseEnvs env with
  | error err => rw [NewRootCmd_fatal env err hp] at h; cases h
  | ok o =>
    rw [NewRootCmd_ret env o hp] at h
    cases h
    simp [rootCommand, rootFlags, Flag.field, allFields]

/-- Witness of C4 at the empty environment. -/
theorem C4_flags_not_one_per_field_witness :
    NewRootCmd emptyEnv = .ret (rootCommand newDefaultOpts) ∧
    (rootCommand newDefaultOpts).flags.length = 17 ∧ allFields.length = 18 ∧
    (∀ fl ∈ (rootCommand newDefaultOpts).flags, fl.field ≠ some (.str .Listener)) ∧
    (∀ fl ∈ (rootCommand newDefaultOpts).flags, fl.field ≠ some (.str .TFWorkspace)) ∧
    ((rootCommand newDefaultOpts).flags.filter
      (fun fl => fl.field = some (.str .TFCWorkspaceName))).map
      (fun fl => fl.Name) = ["tf-workspace", "tfc-workspace"] :=
  ⟨by decide!, C4_flags_not_one_per_field emptyEnv (rootCommand newDefaultOpts) (by decide!)⟩

/-- C5, as stated, fails: the empty string is a value without a comma, and
`--tf-var-files ""` resolves `TFVarFiles` to the empty list, not to `[""]`;
a later empty value is dropped from the list. Values are read as CSV records,
so a value without a comma is not always kept as it is either: the quoted
value `"a"` is stored as `a`, of a value in two lines only the first line is
stored, a value that ends in a carriage return is stored without it, and
`a"b` is rejected. -/
theorem C5_empty_value_is_dropped :
    (resolve emptyEnv ["--tf-var-files", ""]).map (fun o => o.TFVarFiles) = some [] ∧
    (resolve emptyEnv ["--tf-var-files", ""]).map (fun o => o.TFVarFiles) ≠ some [""] ∧
    (resolve emptyEnv ["--tf-var-files", "a.tfvars", "--tf-var-files", ""]).map
      (fun o => o.TFVarFiles) = some ["a.tfvars"] ∧
    (resolve emptyEnv ["--tf-var-files", "\"a\""]).map (fun o => o.TFVarFiles) = some ["a"] ∧
    (resolve emptyEnv ["--tf-var-files", "a\nb"]).map (fun o => o.TFVarFiles) = some ["a"] ∧
    (resolve emptyEnv ["--tf-var-files", "a\r"]).map (fun o => o.TFVarFiles) = some ["a"] ∧
    resolve emptyEnv ["--tf-var-files", "a\"b"] = none := by
  decide!

/-- C5, amended (list order is preserved): for every environment `parseEnvs`
accepts and every non-empty sequence `vs` of plain values (not empty, without
comma, double quote and line feed, and not ending in a carriage return), the
arguments `--tf-var-files v1 ... --tf-var-files vn` resolve `TFVarFiles` to
exactly `vs`, in order and with duplicates kept; likewise `--tf-vars` for
`TFVars` and `--tf-backend-configs` for `TFBackendConfigs`. -/
theorem C5_list_order_preserved (env : Env) (o : opts) (vs : List String)
    (henv : newDefaultOpts.parseEnvs env = .ok o)
    (hne : vs ≠ []) (hplain : ∀ v ∈ vs, plainValue v) :
    (∃ r, resolve env (repeated "--tf-var-files" vs) = some r ∧ r.TFVarFiles = vs) ∧
    (∃ r, resolve env (repeated "--tf-vars" vs) = some r ∧ r.TFVars = vs) ∧
    (∃ r, resolve env (repeated "--tf-backend-configs" vs) = some r ∧
      r.TFBackendConfigs = vs) := by
  refine ⟨?_, ?_, ?_⟩
  · exact resolve_repeated env o "--tf-var-files" "tf-var-files".data _ .TFVarFiles vs henv
      rfl (by decide) (by decide) rfl (lookup_tf_var_files o) hne hplain
  · exact resolve_repeated env o "--tf-vars" "tf-vars".data _ .TFVars vs henv
      rfl (by decide) (by decide) rfl (lookup_tf_vars o) hne hplain
  · exact resolve_repeated env o "--tf-backend-configs" "tf-backend-configs".data _
      .TFBackendConfigs vs henv rfl (by decide) (by decide) rfl
      (lookup_tf_backend_configs o) hne hplain

/-- Witness of C5: `--tf-var-files a.tfvars --tf-var-files b.tfvars`, then a
value with a carriage return inside and a repeated value, with
`ROVER_TF_VAR_FILES=x.tfvars` in the environment. -/
theorem C5_list_order_preserved_witness :
    newDefaultOpts.parseEnvs (singleEnv "ROVER_TF_VAR_FILES" "x.tfvars")
      = .ok { newDefaultOpts with TFVarFiles := ["x.tfvars"] } ∧
    ["a.tfvars", "b.tfvars", "x\ry", "a.tfvars"] ≠ [] ∧
    (∀ v ∈ ["a.tfvars", "b.tfvars", "x\ry", "a.tfvars"], plainValue v) ∧
    ((∃ r, resolve (singleEnv "ROVER_TF_VAR_FILES" "x.tfvars")
          (repeated "--tf-var-files" ["a.tfvars", "b.tfvars", "x\ry", "a.tfvars"]) = some r ∧
          r.TFVarFiles = ["a.tfvars", "b.tfvars", "x\ry", "a.tfvars"]) ∧
      (∃ r, resolve (singleEnv "ROVER_TF_VAR_FILES" "x.tfvars")
          (repeated "--tf-vars" ["a.tfvars", "b.tfvars", "x\ry", "a.tfvars"]) = some r ∧
          r.TFVars = ["a.tfvars", "b.tfvars", "x\ry", "a.tfvars"]) ∧
      (∃ r, resolve (singleEnv "ROVER_TF_VAR_FILES" "x.tfvars")
          (repeated "--tf-backend-configs" ["a.tfvars", "b.tfvars", "x\ry", "a.tfvars"])
            = some r ∧
          r.TFBackendConfigs = ["a.tfvars", "b.tfvars", "x\ry", "a.tfvars"])) :=
  ⟨by decide!, by decide, by decide!,
    C5_list_order_preserved (singleEnv "ROVER_TF_VAR_FILES" "x.tfvars")
      { newDefaultOpts with TFVarFiles := ["x.tfvars"] }
      ["a.tfvars", "b.tfvars", "x\ry", "a.tfvars"]
      (by decide!) (by decide) (by decide!)⟩

/-- C6, as stated, fails: for a configuration with `PlanPath = "plan.out"` and
`PlanJSONPath = "plan.json"`, `validateFlags` returns nil and `RunE` calls
asset generation. -/
theorem C6_both_plan_sources_accepted :
    ({ newDefaultOpts with PlanPath := "plan.out", PlanJSONPath := "plan.json" } :
        opts).validateFlags = none ∧
    (RunE { newDefaultOpts with PlanPath := "plan.out", PlanJSONPath := "plan.json" }
        none).generateAssetsCalls = 1 ∧
    (resolve emptyEnv ["--plan-path", "plan.out", "--plan-json-path", "plan.json"]).map
        (fun o => (o.PlanPath, o.PlanJSONPath)) = some ("plan.out", "plan.json") ∧
    Execute emptyEnv ["--plan-path", "plan.out", "--plan-json-path", "plan.json"] none =
      { generateAssetsCalls := 1, helpPrinted := true, exit := .ret none } := by
  decide!

/-- C6, amended: `validateFlags` returns nil for every configuration, so
`RunE` never returns a validation error: it calls asset generation exactly
once and then either ends the process (generation failed) or returns nil. -/
theorem C6_validateFlags_accepts_all (o : opts) (generateAssets : Option GoError) :
    o.validateFlags = none ∧
    (RunE o generateAssets).generateAssetsCalls = 1 ∧
    ((RunE o generateAssets).exit = .ret none ∨
      ∃ err, generateAssets = some err ∧ (RunE o generateAssets).exit = .fatal err.Error) := by
  cases generateAssets with
  | none => simp [RunE, opts.validateFlags]
  | some err => simp [RunE, opts.validateFlags]

/-- C7, as stated, fails: with `ROVER_GEN_IMAGE` set to the empty string,
which is not a boolean literal, `parseEnvs` returns no error and leaves the
defaults as they are, and `NewRootCmd` goes on to build the command and
register its flags. -/
theorem C7_empty_value_is_skipped :
    parseBool "" = none ∧
    newDefaultOpts.parseEnvs (singleEnv "ROVER_GEN_IMAGE" "") = .ok newDefaultOpts ∧
    NewRootCmd (singleEnv "ROVER_GEN_IMAGE" "") = .ret (rootCommand newDefaultOpts) := by
  decide!

/-- C7, amended: when the variable of a boolean field holds a non-empty string
that `strconv.ParseBool` rejects, `parseEnvs` returns an error on every
record, and `NewRootCmd` ends the process (`log.Fatal`) without returning a
command, hence before any flag is registered. -/
theorem C7_bad_bool_aborts (env : Env) (p : BoolField) (s : String)
    (hset : env (envVarPrefix ++ (Field.bool p).envTag) = some s)
    (hne : s ≠ "") (hbad : parseBool s = none) :
    (∀ o : opts, ∃ err, o.parseEnvs env = .error err) ∧
    ∃ msg, NewRootCmd env = .fatal msg := by
  have hstep : ∀ o, ∃ e, doParseField env o (.bool p) = .error e := by
    intro o
    simp [doParseField, envGet, hset, hne, envSet, hbad]
  have hall : ∀ o : opts, ∃ err, o.parseEnvs env = .error err := by
    intro o
    rw [parseEnvs_eq]
    exact envParse_error env (.bool p) hstep allFields (mem_allFields _) o
  refine ⟨hall, ?_⟩
  obtain ⟨err, herr⟩ := hall newDefaultOpts
  exact ⟨err.Error, NewRootCmd_fatal env err herr⟩

/-- Witness of C7: `ROVER_GEN_IMAGE=maybe`. -/
theorem C7_bad_bool_aborts_witness :
    singleEnv "ROVER_GEN_IMAGE" "maybe" (envVarPrefix ++ (Field.bool .GenImage).envTag)
      = some "maybe" ∧
    "maybe" ≠ "" ∧ parseBool "maybe" = none ∧
    ((∀ o : opts, ∃ err, o.parseEnvs (singleEnv "ROVER_GEN_IMAGE" "maybe") = .error err) ∧
      ∃ msg, NewRootCmd (singleEnv "ROVER_GEN_IMAGE" "maybe") = .fatal msg) :=
  ⟨by decide!, by decide, by decide!,
    C7_bad_bool_aborts (singleEnv "ROVER_GEN_IMAGE" "maybe") .GenImage "maybe"
      (by decide!) (by decide) (by decide!)⟩

/-- C8 (environment overlay framed by variable name). After a successful
`parseEnvs`, a field whose variable `ROVER_<tag>` is not set holds the value
it held before; the value of a field after `parseEnvs` is the same in any two
environments that agree on the field's variable `ROVER_<tag>`; and on the
empty environment `parseEnvs` returns `newDefaultOpts` unchanged. -/
theorem C8_parseEnvs_frame (env : Env) (o o' : opts) (f : Field)
    (h : o.parseEnvs env = .ok o') :
    (env (envVarPrefix ++ f.envTag) = none → o'.get f = o.get f) ∧
    (∀ (env2 : Env) (o2 : opts),
      env2 (envVarPrefix ++ f.envTag) = env (envVarPrefix ++ f.envTag) →
      o.parseEnvs env2 = .ok o2 → o2.get f = o'.get f) ∧
    newDefaultOpts.parseEnvs emptyEnv = .ok newDefaultOpts := by
  rw [parseEnvs_eq] at h
  refine ⟨?_, ?_, by decide!⟩
  · intro hnone
    exact envParse_unset env f (by simp [envGet, hnone]) allFields o o' h
  · intro env2 o2 hkey h2
    rw [parseEnvs_eq] at h2
    exact envParse_agree env2 env f (by simp [envGet, hkey]) allFields o o o2 o' rfl h2 h

/-- Witness of C8: the field `Name` under `ROVER_GEN_IMAGE=true`. -/
theorem C8_parseEnvs_frame_witness :
    newDefaultOpts.parseEnvs (singleEnv "ROVER_GEN_IMAGE" "true")
      = .ok { newDefaultOpts with GenImage := true } ∧
    ((singleEnv "ROVER_GEN_IMAGE" "true" (envVarPrefix ++ (Field.str .Name).envTag) = none →
        ({ newDefaultOpts with GenImage := true } : opts).get (.str .Name)
          = newDefaultOpts.get (.str .Name)) ∧
      (∀ (env2 : Env) (o2 : opts),
        env2 (envVarPrefix ++ (Field.str .Name).envTag)
          = singleEnv "ROVER_GEN_IMAGE" "true" (envVarPrefix ++ (Field.str .Name).envTag) →
        newDefaultOpts.parseEnvs env2 = .ok o2 →
        o2.get (.str .Name) = ({ newDefaultOpts with GenImage := true } : opts).get (.str .Name)) ∧
      newDefaultOpts.parseEnvs emptyEnv = .ok newDefaultOpts) :=
  ⟨by decide!,
    C8_parseEnvs_frame (singleEnv "ROVER_GEN_IMAGE" "true") newDefaultOpts
      { newDefaultOpts with GenImage := true } (.str .Name) (by decide!)⟩

/-- C9 (error marker). When `NewRootCmd` returns a command, `Execute` returns
nil exactly when that command's `Execute` returns nil, and when the command's
`Execute` returns an error, `Execute` returns an error that wraps it and whose
message is `"[ERROR] "` followed by the message of the command's error. -/
theorem C9_execute_marks_error (env : Env) (args : List String)
    (generateAssets : Option GoError) (cmd : Command)
    (hcmd : NewRootCmd env = .ret cmd) :
    ((Execute env args generateAssets).exit = .ret none ↔
      (cmd.Execute args generateAssets).exit = .ret none) ∧
    (∀ err, (cmd.Execute args generateAssets).exit = .ret (some err) →
      ∃ e, (Execute env args generateAssets).exit = .ret (some e) ∧
        e.Unwrap = some err ∧ e.Error = "[ERROR] " ++ err.Error) := by
  unfold Execute
  rw [hcmd]
  cases hr : (cmd.Execute args generateAssets).exit with
  | fatal msg => simp [hr]
  | ret r =>
    cases r with
    | none => simp [hr, wrapResult]
    | some err => simp [hr, wrapResult, errorfERROR, GoError.Unwrap, GoError.Error]

/-- Witness of C9: the unknown flag `--bogus` with an empty environment. -/
theorem C9_execute_marks_error_witness :
    NewRootCmd emptyEnv = .ret (rootCommand newDefaultOpts) ∧
    ((rootCommand newDefaultOpts).Execute ["--bogus"] none).exit
      = .ret (some (.leaf "unknown flag: --bogus")) ∧
    (((Execute emptyEnv ["--bogus"] none).exit = .ret none ↔
        ((rootCommand newDefaultOpts).Execute ["--bogus"] none).exit = .ret none) ∧
      (∀ err, ((rootCommand newDefaultOpts).Execute ["--bogus"] none).exit = .ret (some err) →
        ∃ e, (Execute emptyEnv ["--bogus"] none).exit = .ret (some e) ∧
          e.Unwrap = some err ∧ e.Error = "[ERROR] " ++ err.Error)) :=
  ⟨by decide!, by decide!,
    C9_execute_marks_error emptyEnv ["--bogus"] none (rootCommand newDefaultOpts) (by decide!)⟩

/-- C10 (flag defaults wired from the bound field). With
`ROVER_ZIP_FILE_NAME=x`, `ROVER_WORKING_DIRECTORY=/src` and
`ROVER_GEN_IMAGE=true` in the environment, `parseEnvs` stores these three
values, but the flags `zip-file` and `working-dir` are registered with the
default `"rover"` (the value of `Name`), `gen-image` with `false` (the value
of `ShowSensitive`) and `tf-workspace` with `"/bin/terraform"` (the value of
`TFPath`), and after the registrations the four fields hold these defaults. -/
theorem C10_defaults_taken_from_other_fields :
    let env : Env := fun k =>
      if k = "ROVER_ZIP_FILE_NAME" then some "x"
      else if k = "ROVER_WORKING_DIRECTORY" then some "/src"
      else if k = "ROVER_GEN_IMAGE" then some "true"
      else none
    newDefaultOpts.parseEnvs env =
      .ok { newDefaultOpts with ZipFileName := "x", WorkingDir := "/src", GenImage := true } ∧
    ∃ cmd, NewRootCmd env = .ret cmd ∧
      (cmd.lookup "zip-file").map (fun fl => fl.DefValue) = some (.str "rover") ∧
      (cmd.lookup "working-dir").map (fun fl => fl.DefValue) = some (.str "rover") ∧
      (cmd.lookup "gen-image").map (fun fl => fl.DefValue) = some (.bool false) ∧
      (cmd.lookup "tf-workspace").map (fun fl => fl.DefValue) = some (.str "/bin/terraform") ∧
      cmd.o = { newDefaultOpts with
                ZipFileName := "rover", WorkingDir := "rover", GenImage := false,
                TFCWorkspaceName := "/bin/terraform" } := by
  intro env
  refine ⟨by decide!, rootCommand
    { newDefaultOpts with ZipFileName := "x", WorkingDir := "/src", GenImage := true }, ?_⟩
  decide!


end Rover
